import Mathlib

/-!
Shallow embedding of github.com/rusq/asyncdl (src/asyncdl.go) and of the
parts of the Go standard library it relies on (regexp match for the fixed
pattern, net/url parsing of the path component, path.Base, path.Clean and
filepath.Join, errors.Is unwrapping).

Modelling conventions:
- Go strings are modelled as Lean `String` / `List Char`; Go operates on
  bytes, the model on characters, so the two coincide on ASCII input (all
  concrete inputs used below are ASCII).
- Effectful collaborators (the HTTP client, fsadapter construction, the
  pluggable fetch function) are modelled by oracle parameters that fix the
  outcome of each external call; the code under verification is translated
  statement by statement around those outcomes.
- The two synchronisation channels of the download pipeline are modelled by
  the (scheduler dependent) sequence of values that crosses them: the drain
  loop of Manager.Download is a function of the drained result sequence, and
  a worker is a function of the request sequence it receives plus a boolean
  oracle resolving each select between the done channel and the request
  channel when both are ready.
-/

set_option autoImplicit false

namespace Asyncdl

/-- Model of Go `error` values produced or consumed by this package.
Each `fmt.Errorf` call site with a `%w` verb becomes a wrapping constructor
(the cause is a field); `%v`-free details that the claims do not inspect are
kept as the constructor's payload. -/
inductive GoError where
  /-- context.Canceled -/
  | canceled
  /-- context.DeadlineExceeded -/
  | deadlineExceeded
  /-- errors.New / fmt.Errorf without %w -/
  | simpleMsg (msg : String)
  /-- an external error wrapping a cause (e.g. *url.Error returned by
  http.Client.Do around a context error) -/
  | wrap (msg : String) (cause : GoError)
  /-- asyncdl.go:269 "invalid server status code: %d (%s)" (no %w) -/
  | statusErr (code : Nat) (status : String)
  /-- asyncdl.go:264 "error creating the file at path %q: %w" -/
  | createErr (path : String) (cause : GoError)
  /-- asyncdl.go:212 "failed: %q: %w" -/
  | failedItem (name : String) (cause : GoError)
  /-- asyncdl.go:163 "error parsing urls: %w" -/
  | parseWrap (cause : GoError)
  /-- asyncdl.go:284 "invalid uri: %s" (no %w) -/
  | invalidURI (uri : String)
  /-- asyncdl.go:293 "not a file: %s" (no %w) -/
  | notAFile (bp : String)
  /-- net/url &Error{"parse", url, cause}; has Unwrap -/
  | urlErr (url : String) (cause : GoError)
  /-- net/url EscapeError (invalid URL escape; leaf) -/
  | escapeErr (s : String)
  /-- net/url InvalidHostError (leaf) -/
  | hostErr (s : String)
  deriving DecidableEq

/-- Model of errors.Is(err, context.Canceled): true iff context.Canceled is
reachable through the Unwrap chain.  Constructors made with %w or with an
Unwrap method recurse into their cause; leaves compare directly. -/
def errorsIsCanceled : GoError → Bool
  | .canceled => true
  | .wrap _ cause => errorsIsCanceled cause
  | .createErr _ cause => errorsIsCanceled cause
  | .failedItem _ cause => errorsIsCanceled cause
  | .parseWrap cause => errorsIsCanceled cause
  | .urlErr _ cause => errorsIsCanceled cause
  | _ => false

/-! ### Character and list-of-character helpers (models of Go byte tests) -/

/-- The apostrophe character (kept out of literals). -/
def aposChar : Char := Char.ofNat 39

/-- The double-quote character. -/
def dquoteChar : Char := Char.ofNat 34

/-- The newline character. -/
def nlChar : Char := Char.ofNat 10

def isUpperCh (c : Char) : Bool := 65 ≤ c.toNat && c.toNat ≤ 90

def isLowerCh (c : Char) : Bool := 97 ≤ c.toNat && c.toNat ≤ 122

def isAlphaCh (c : Char) : Bool := isUpperCh c || isLowerCh c

def isDigitCh (c : Char) : Bool := 48 ≤ c.toNat && c.toNat ≤ 57

def isAlphaNumCh (c : Char) : Bool := isAlphaCh c || isDigitCh c

/-- Go net/url ishex. -/
def ishex (c : Char) : Bool :=
  isDigitCh c || (97 ≤ c.toNat && c.toNat ≤ 102) || (65 ≤ c.toNat && c.toNat ≤ 70)

/-- Go net/url unhex. -/
def unhex (c : Char) : Nat :=
  if isDigitCh c then c.toNat - 48
  else if 97 ≤ c.toNat && c.toNat ≤ 102 then c.toNat - 97 + 10
  else if 65 ≤ c.toNat && c.toNat ≤ 70 then c.toNat - 65 + 10
  else 0

/-- Go net/url stringContainsCTLByte: any byte below 0x20 or equal 0x7f. -/
def containsCTL (l : List Char) : Bool :=
  l.any (fun c => c.toNat < 32 || c.toNat == 127)

/-- hasLead pat l: l starts with the literal pat (strings.HasPrefix). -/
def hasLead : List Char → List Char → Bool
  | [], _ => true
  | _ :: _, [] => false
  | p :: ps, c :: cs => p == c && hasLead ps cs

/-- dropLead pat l: the remainder of l after the literal pat, when l starts
with it. -/
def dropLead : List Char → List Char → Option (List Char)
  | [], l => some l
  | _ :: _, [] => none
  | p :: ps, c :: cs => if p = c then dropLead ps cs else none

/-- Go net/url split(s, sep, true): cut at the first sep, dropping it;
(s, "") when sep does not occur. -/
def splitCut (sep : Char) : List Char → List Char × List Char
  | [] => ([], [])
  | c :: cs =>
    if c = sep then ([], cs)
    else ((splitCut sep cs).1.cons c, (splitCut sep cs).2)

/-- Go net/url split(s, sep, false): cut at the first sep, keeping it in the
second half; (s, "") when sep does not occur. -/
def splitKeep (sep : Char) : List Char → List Char × List Char
  | [] => ([], [])
  | c :: cs =>
    if c = sep then ([], c :: cs)
    else ((splitKeep sep cs).1.cons c, (splitKeep sep cs).2)

/-- Split at the last occurrence of sep (strings.LastIndex), dropping it;
none when sep does not occur. -/
def splitAtLast (sep : Char) : List Char → Option (List Char × List Char)
  | [] => none
  | c :: cs =>
    match splitAtLast sep cs with
    | some (a, b) => some (c :: a, b)
    | none => if c = sep then some ([], cs) else none

/-- Index of the first occurrence of the literal pat (strings.Index). -/
def indexOfSeq (pat : List Char) : List Char → Option Nat
  | [] => if hasLead pat [] then some 0 else none
  | c :: cs =>
    if hasLead pat (c :: cs) then some 0
    else match indexOfSeq pat cs with
         | some n => some (n + 1)
         | none => none

def listToStr (l : List Char) : String := String.mk l

/-! ### Model of the compiled regular expression (asyncdl.go:279)

httpRe = regexp.MustCompile("^https?://.*[^/]$").  In Go's syntax with
default flags, the dot does not match a newline, a negated class does, and
the anchors match only at the ends of the text.  So the pattern matches s
iff s is "http://" or "https://" followed by a non-empty remainder whose
last character is not a slash and whose other characters include no
newline. -/

/-- Match of `.*[^/]$` against the remainder after the scheme separator. -/
def httpReTail (rest : List Char) : Bool :=
  match rest.getLast? with
  | none => false
  | some c => decide (c ≠ '/') && rest.dropLast.all (fun d => decide (d ≠ nlChar))

/-- Match of the whole pattern `^https?://.*[^/]$` (asyncdl.go:279). -/
def httpReMatch (s : String) : Bool :=
  (match dropLead ("http://".toList) s.toList with
   | some rest => httpReTail rest
   | none => false) ||
  (match dropLead ("https://".toList) s.toList with
   | some rest => httpReTail rest
   | none => false)

/-! ### Model of net/url Parse (go1.19), restricted to the Path component

basename only uses url.Parse(uri).Path and the parse error, so the model
computes the decoded path and reproduces every error exit of Parse.  String
indices of the Go code become list splits; percent-decoding produces one
character per decoded byte. -/

/-- Encoding modes of net/url unescape that Parse reaches. -/
inductive EncMode where
  | path | host | zone | userPassword | fragment
  deriving DecidableEq

/-- Punctuation that shouldEscape admits unescaped in a host or zone. -/
def hostAllowedPunct (c : Char) : Bool :=
  c == '!' || c == '$' || c == '&' || c == aposChar || c == '(' || c == ')' ||
  c == '*' || c == '+' || c == ',' || c == ';' || c == '=' || c == ':' ||
  c == '[' || c == ']' || c == '<' || c == '>' || c == dquoteChar

/-- Go net/url shouldEscape for the host and zone modes (the only modes in
which unescape consults it). -/
def shouldEscapeHost (c : Char) : Bool :=
  !(isAlphaNumCh c || c == '-' || c == '_' || c == '.' || c == '~' ||
    hostAllowedPunct c)

/-- Go net/url unescape: validates percent escapes (with the host and zone
mode restrictions) and decodes them; rejects raw characters a host may not
contain. -/
def unescape (mode : EncMode) : List Char → Except GoError (List Char)
  | [] => .ok []
  | '%' :: rest =>
    match rest with
    | a :: b :: rest2 =>
      if ishex a && ishex b then
        if mode = .host ∧ unhex a < 8 ∧ ¬(a = '2' ∧ b = '5') then
          .error (.escapeErr (listToStr ['%', a, b]))
        else if mode = .zone ∧ ¬(a = '2' ∧ b = '5') ∧
            Char.ofNat (unhex a * 16 + unhex b) ≠ ' ' ∧
            shouldEscapeHost (Char.ofNat (unhex a * 16 + unhex b)) then
          .error (.escapeErr (listToStr ['%', a, b]))
        else
          match unescape mode rest2 with
          | .error e => .error e
          | .ok out => .ok (Char.ofNat (unhex a * 16 + unhex b) :: out)
      else .error (.escapeErr (listToStr (('%' :: rest).take 3)))
    | _ => .error (.escapeErr (listToStr (('%' :: rest).take 3)))
  | c :: rest =>
    if (mode = .host ∨ mode = .zone) ∧ c.toNat < 128 ∧ shouldEscapeHost c then
      .error (.hostErr (listToStr [c]))
    else
      match unescape mode rest with
      | .error e => .error e
      | .ok out => .ok (c :: out)

/-- Go net/url validOptionalPort. -/
def validOptionalPort : List Char → Bool
  | [] => true
  | c :: rest => c == ':' && rest.all isDigitCh

/-- Go net/url validUserinfo. -/
def validUserinfo (l : List Char) : Bool :=
  l.all fun c =>
    isAlphaNumCh c || c == '-' || c == '.' || c == '_' || c == ':' ||
    c == '~' || c == '!' || c == '$' || c == '&' || c == aposChar ||
    c == '(' || c == ')' || c == '*' || c == '+' || c == ',' || c == ';' ||
    c == '=' || c == '%' || c == '@'

/-- Go net/url parseHost; only the error behaviour matters downstream, so
the host value is dropped. -/
def parseHost (host : List Char) : Except GoError Unit :=
  if host.head? = some '[' then
    match splitAtLast ']' host with
    | none => .error (.simpleMsg "missing right bracket in host")
    | some (before, colonPort) =>
      if ¬ validOptionalPort colonPort then
        .error (.simpleMsg "invalid port after host")
      else
        match indexOfSeq ['%', '2', '5'] before with
        | some z =>
          match unescape .host (before.take z) with
          | .error e => .error e
          | .ok _ =>
            match unescape .zone (before.drop z) with
            | .error e => .error e
            | .ok _ =>
              match unescape .host (']' :: colonPort) with
              | .error e => .error e
              | .ok _ => .ok ()
        | none =>
          match unescape .host host with
          | .error e => .error e
          | .ok _ => .ok ()
  else
    match splitAtLast ':' host with
    | some (_, after) =>
      if ¬ validOptionalPort (':' :: after) then
        .error (.simpleMsg "invalid port after host")
      else
        match unescape .host host with
        | .error e => .error e
        | .ok _ => .ok ()
    | none =>
      match unescape .host host with
      | .error e => .error e
      | .ok _ => .ok ()

/-- Go net/url parseAuthority; the userinfo and host values are dropped,
the error behaviour is kept. -/
def parseAuthority (authority : List Char) : Except GoError Unit :=
  match splitAtLast '@' authority with
  | none => parseHost authority
  | some (userinfo, hostPart) =>
    match parseHost hostPart with
    | .error e => .error e
    | .ok _ =>
      if ¬ validUserinfo userinfo then
        .error (.simpleMsg "net/url: invalid userinfo")
      else if ¬ userinfo.contains ':' then
        match unescape .userPassword userinfo with
        | .error e => .error e
        | .ok _ => .ok ()
      else
        match unescape .userPassword (splitCut ':' userinfo).1 with
        | .error e => .error e
        | .ok _ =>
          match unescape .userPassword (splitCut ':' userinfo).2 with
          | .error e => .error e
          | .ok _ => .ok ()

/-- Result of Go net/url getScheme. -/
inductive SchemeRes where
  | schemeErr
  | noScheme
  | found (scheme rest : List Char)

def getSchemeAux : List Char → List Char → SchemeRes
  | _, [] => .noScheme
  | acc, c :: cs =>
    if isAlphaCh c then getSchemeAux (acc ++ [c]) cs
    else if isDigitCh c || c = '+' || c = '-' || c = '.' then
      if acc = [] then .noScheme else getSchemeAux (acc ++ [c]) cs
    else if c = ':' then
      if acc = [] then .schemeErr else .found acc cs
    else .noScheme

/-- Go net/url getScheme: the scheme before the first colon, when the colon
is preceded only by scheme characters starting with a letter. -/
def getScheme (l : List Char) : Except GoError (List Char × List Char) :=
  match getSchemeAux [] l with
  | .schemeErr => .error (.simpleMsg "missing protocol scheme")
  | .noScheme => .ok ([], l)
  | .found scheme rest => .ok (scheme, rest)

/-- Go net/url parse(rawURL, false) (fragment already removed), returning
the decoded Path. -/
def parseNoFrag (rawURL : List Char) : Except GoError (List Char) :=
  if containsCTL rawURL then
    .error (.simpleMsg "net/url: invalid control character in URL")
  else if rawURL = ['*'] then .ok ['*']
  else
    match getScheme rawURL with
    | .error e => .error e
    | .ok (scheme0, rest0) =>
      let scheme := scheme0.map Char.toLower
      let rest :=
        if rest0.getLast? = some '?' ∧ ¬ rest0.dropLast.contains '?' then
          rest0.dropLast
        else (splitCut '?' rest0).1
      if rest.head? ≠ some '/' then
        if scheme ≠ [] then .ok []
        else if ((splitCut '/' rest).1).contains ':' then
          .error (.simpleMsg "first path segment in URL cannot contain colon")
        else unescape .path rest
      else if (scheme ≠ [] ∨ ¬ hasLead ['/', '/', '/'] rest) ∧
          hasLead ['/', '/'] rest then
        match parseAuthority (splitKeep '/' (rest.drop 2)).1 with
        | .error e => .error e
        | .ok _ => unescape .path (splitKeep '/' (rest.drop 2)).2
      else unescape .path rest

/-- Go net/url Parse(rawURL), returning the decoded Path component.  The
fragment is cut first; a parse error is wrapped in &Error{"parse", u, err},
a fragment-escape error in &Error{"parse", rawURL, err}. -/
def urlParse (rawURL : List Char) : Except GoError (List Char) :=
  match parseNoFrag (splitCut '#' rawURL).1 with
  | .error e => .error (.urlErr (listToStr (splitCut '#' rawURL).1) e)
  | .ok path =>
    if (splitCut '#' rawURL).2 = [] then .ok path
    else
      match unescape .fragment (splitCut '#' rawURL).2 with
      | .error e => .error (.urlErr (listToStr rawURL) e)
      | .ok _ => .ok path

/-! ### Model of path.Base, path.Clean and filepath.Join (Unix rules) -/

/-- Go path.Base. -/
def pathBase (p : List Char) : List Char :=
  if p = [] then ['.']
  else
    let q := (p.reverse.dropWhile (fun c => c == '/')).reverse
    match splitAtLast '/' q with
    | some (_, after) => if after = [] then ['/'] else after
    | none => if q = [] then ['/'] else q

/-- Segment-stack step of Go path.Clean: empty and dot segments vanish,
dotdot pops (rooted) or accumulates (relative). -/
def cleanSegs (rooted : Bool) : List (List Char) → List (List Char) → List (List Char)
  | out, [] => out
  | out, seg :: rest =>
    if seg = [] ∨ seg = ['.'] then cleanSegs rooted out rest
    else if seg = ['.', '.'] then
      match out with
      | top :: out2 =>
        if top = ['.', '.'] then cleanSegs rooted (seg :: top :: out2) rest
        else cleanSegs rooted out2 rest
      | [] => if rooted then cleanSegs rooted [] rest else cleanSegs rooted [seg] rest
    else cleanSegs rooted (seg :: out) rest

/-- Go path.Clean (also filepath.Clean on Unix). -/
def pathClean (p : List Char) : List Char :=
  if p = [] then ['.']
  else
    let rooted := p.head? = some '/'
    let out := (cleanSegs rooted [] (p.splitOn '/')).reverse
    let s := (if rooted then ['/'] else []) ++ (List.intercalate ['/'] out)
    if s = [] then ['.'] else s

/-- Go filepath.Join(dir, name) on Unix: empty leading elements are
dropped, the rest are joined with a slash and cleaned. -/
def filepathJoin (dir name : String) : String :=
  if dir = "" ∧ name = "" then ""
  else if dir = "" then listToStr (pathClean name.toList)
  else listToStr (pathClean (dir.toList ++ '/' :: name.toList))

/-! ### asyncdl.go definitions -/

/-- asyncdl.go:282 basename: regex gate, url.Parse, path.Base of the path,
minimum length two. -/
def basename (uri : String) : Except GoError String :=
  if ¬ httpReMatch uri then .error (.invalidURI uri)
  else
    match urlParse uri.toList with
    | .error e => .error e
    | .ok p =>
      if (pathBase p).length < 2 then .error (.notAFile (listToStr (pathBase p)))
      else .ok (listToStr (pathBase p))

/-- asyncdl.go:143 request. -/
structure request where
  filename : String
  url : String
  deriving DecidableEq

/-- asyncdl.go:299 parseURLs: skips empty strings, stops at the first
basename error (the Go function then returns a nil slice together with the
error, which Except renders as the error alone). -/
def parseURLs : List String → Except GoError (List request)
  | [] => .ok []
  | uri :: rest =>
    if uri = "" then parseURLs rest
    else
      match basename uri with
      | .error e => .error e
      | .ok name =>
        match parseURLs rest with
        | .error e => .error e
        | .ok reqs => .ok (⟨name, uri⟩ :: reqs)

/-- asyncdl.go:223 result. -/
structure result where
  filename : String
  err : Option GoError
  deriving DecidableEq

/-- One call to the logging sink of the result processor, by call site:
asyncdl.go:214 logs a failure, asyncdl.go:217 logs progress. -/
inductive LogLine where
  | failed (name : String) (err : GoError)
  | downloaded (count total : Nat) (name : String)
  deriving DecidableEq

/-- asyncdl.go:206-218, the result processor of Manager.Download, as a
function of the sequence of results drained from resultC (which the
scheduler determines): returns the logged lines and the error Download
returns (none = Download reaches the final return nil at line 220 for this
drained sequence). -/
def drainResults (ignoreHTTPerr : Bool) (total : Nat) :
    Nat → List result → List LogLine × Option GoError
  | _, [] => ([], none)
  | count, res :: rest =>
    match res.err with
    | some e =>
      if errorsIsCanceled e then ([], some e)
      else if ignoreHTTPerr = false then ([], some (.failedItem res.filename e))
      else
        (.failed res.filename e ::
           .downloaded (count + 1) total res.filename ::
           (drainResults ignoreHTTPerr total (count + 1) rest).1,
         (drainResults ignoreHTTPerr total (count + 1) rest).2)
    | none =>
      (.downloaded (count + 1) total res.filename ::
         (drainResults ignoreHTTPerr total (count + 1) rest).1,
       (drainResults ignoreHTTPerr total (count + 1) rest).2)

/-- asyncdl.go:231 Manager.worker, as a function of the worker's view of
the pipeline: ctxErr is the (fixed) state of the cancellation context
(some e once the context is done with ctx.Err() = e), queue the sequence
of requests the request channel would deliver to this worker before being
closed, fetchFn the outcome of each fetch call, and sched resolves each
select when both the done case and the receive case are ready (true picks
the done case; when the context is not done only the receive case is
ready, and an exhausted sched defaults to the done case).  Returns the
results the worker sends to resultC and the requests it passed to
m.fetchFn. -/
def worker (ctxErr : Option GoError) (fetchFn : request → Option GoError) :
    List Bool → List request → List result × List request
  | sched, [] =>
    match ctxErr with
    | some e =>
      match sched with
      | false :: _ => ([], [])
      | _ => ([⟨"", some e⟩], [])
    | none => ([], [])
  | sched, req :: rest =>
    match ctxErr with
    | some e =>
      match sched with
      | false :: sched2 =>
        ((⟨req.filename, fetchFn req⟩ : result) ::
           (worker (some e) fetchFn sched2 rest).1,
         req :: (worker (some e) fetchFn sched2 rest).2)
      | _ => ([⟨"", some e⟩], [])
    | none =>
      ((⟨req.filename, fetchFn req⟩ : result) ::
         (worker none fetchFn sched rest).1,
       req :: (worker none fetchFn sched rest).2)

/-! ### Model of get (asyncdl.go:249) over an explicit storage state -/

/-- The filesystem adapter's visible state: an association of created file
paths to their content; the most recent Create or write for a path wins. -/
def FSState := List (String × String)

def fsCreate (fp : String) (fs : FSState) : FSState := (fp, "") :: fs

def fsWrite (fp : String) (data : String) (fs : FSState) : FSState :=
  (fp, data) :: fs

/-- Content of the file at fp, if one was created. -/
def fsLookup (fp : String) : FSState → Option String
  | [] => none
  | (q, data) :: rest => if q = fp then some data else fsLookup fp rest

/-- The HTTP response http.DefaultClient.Do produced. -/
structure HTTPResp where
  statusCode : Nat
  status : String
  body : String
  deriving DecidableEq

/-- Outcomes of the external calls get makes, in program order:
http.NewRequestWithContext, http.DefaultClient.Do, fsa.Create, io.Copy
(with the prefix written before a copy error). -/
structure GetEnv where
  newReqErr : Option GoError
  doResp : Except GoError HTTPResp
  createErr : Option GoError
  copyErr : Option GoError
  copyWritten : String

/-- asyncdl.go:249 get, statement by statement around the external-call
outcomes in env; returns the error result and the storage state after the
call (deferred closes release the handle and are not visible in this
state). -/
def get (env : GetEnv) (fs : FSState) (dir filename : String) :
    Except GoError Unit × FSState :=
  match env.newReqErr with
  | some e => (.error e, fs)
  | none =>
    match env.doResp with
    | .error e => (.error e, fs)
    | .ok resp =>
      match env.createErr with
      | some e => (.error (.createErr (filepathJoin dir filename) e), fs)
      | none =>
        if resp.statusCode ≠ 200 then
          (.error (.statusErr resp.statusCode resp.status),
           fsCreate (filepathJoin dir filename) fs)
        else
          match env.copyErr with
          | some e =>
            (.error e,
             fsWrite (filepathJoin dir filename) env.copyWritten
               (fsCreate (filepathJoin dir filename) fs))
          | none =>
            (.ok (),
             fsWrite (filepathJoin dir filename) resp.body
               (fsCreate (filepathJoin dir filename) fs))

/-! ### Manager construction and the Download entry sequence -/

/-- Model signature of the pluggable fetchFunc field; its effectful
behaviour is carried by the oracles above, here only the field's identity
matters. -/
def FetchFn : Type := request → Option GoError

/-- Stands for the package function get in the fetchFn field set by newMgr
(asyncdl.go:96); the value is irrelevant to every claim, only the field's
preservation is. -/
def defaultFetchFn : FetchFn := fun _ => none

/-- asyncdl.go:48 Manager (the fsc adapter itself lives in the FSState and
oracle models above). -/
structure Manager where
  numWorkers : Int
  fetchFn : FetchFn
  ignoreHTTPerr : Bool
  isClosed : Bool

/-- asyncdl.go:25. -/
def defNumWorkers : Int := 12

/-- asyncdl.go:66 Option, the two public construction options. -/
inductive MgrOption where
  /-- asyncdl.go:70 NumWorkers. -/
  | numWorkersOpt (n : Int)
  /-- asyncdl.go:80 IgnoreHTTPErrors. -/
  | ignoreHTTPErrorsOpt (isEnabled : Bool)

/-- Application of one option to the manager. -/
def applyOption (m : Manager) : MgrOption → Manager
  | .numWorkersOpt n =>
    { m with numWorkers := if n < 1 then defNumWorkers else n }
  | .ignoreHTTPErrorsOpt b => { m with ignoreHTTPerr := b }

/-- asyncdl.go:93 newMgr, also the shared tail of New (asyncdl.go:89) and
NewWithPath (asyncdl.go:118): defaults, then the options in order. -/
def newMgr (opts : List MgrOption) : Manager :=
  opts.foldl applyOption
    { numWorkers := defNumWorkers, fetchFn := defaultFetchFn,
      ignoreHTTPerr := true, isClosed := false }

/-- asyncdl.go:151 Manager.Download up to its outcome: the closed check
(line 152), the numWorkers adjustment (lines 155-157), parseURLs (line
161), then the result processor over the drained sequence.  Returns the
manager state after the call, Download's error and the logged lines. -/
def Download (m : Manager) (urls : List String) (results : List result) :
    Manager × Option GoError × List LogLine :=
  if m.isClosed then (m, some (.simpleMsg "manager is closed"), [])
  else
    let m2 := if m.numWorkers = 0 then { m with numWorkers := defNumWorkers } else m
    match parseURLs urls with
    | .error e => (m2, some (.parseWrap e), [])
    | .ok _ =>
      ((drainResults m2.ignoreHTTPerr urls.length 0 results).2.elim
         (m2, none, (drainResults m2.ignoreHTTPerr urls.length 0 results).1)
         (fun e => (m2, some e, (drainResults m2.ignoreHTTPerr urls.length 0 results).1)))

/-- asyncdl.go:38 DownloadToPath: mk is the outcome of
NewWithPath(zipOrDir, opts...) (fsadapter.New being external), dl the
outcome m.Download(ctx, subdir, urls) would give.  Returns the error
DownloadToPath returns together with whether Download was invoked. -/
def DownloadToPath (mk : Except GoError Manager)
    (dl : Manager → Option GoError) : Option GoError × Bool :=
  match mk with
  | .error _ => (none, false)
  | .ok m => (dl m, true)

/-! ### Claim-side definitions (transcribed from the specification's words,
for comparison with the source-derived definitions above) -/

/-- Scheme condition of claim C3: the string has scheme http or https
followed by the separator. -/
def claimC3SchemeOk (s : String) : Bool :=
  (dropLead ("http://".toList) s.toList).isSome ||
  (dropLead ("https://".toList) s.toList).isSome

/-- The claim's destination name: the substring after the last slash of the
path component (the whole path when it has no slash). -/
def claimC3FinalSeg (p : List Char) : List Char :=
  match splitAtLast '/' p with
  | some (_, after) => after
  | none => p

/-- Acceptance condition of claim C3, following its words: http or https
scheme, a non-empty path component whose final character is not a slash,
and a final path segment of length at least two. -/
def claimC3Accepts (s : String) : Bool :=
  claimC3SchemeOk s &&
  (match urlParse s.toList with
   | .ok p =>
     decide (p ≠ []) && decide (p.getLast? ≠ some '/') &&
       decide (2 ≤ (claimC3FinalSeg p).length)
   | .error _ => false)

/-- The per-result log lines of the tolerant drain loop: every result gets
one progress line numbered by its drain position, an errored result gets a
failure line immediately before it. -/
def expectedLogs (total : Nat) : Nat → List result → List LogLine
  | _, [] => []
  | count, r :: rest =>
    match r.err with
    | some e =>
      .failed r.filename e :: .downloaded (count + 1) total r.filename ::
        expectedLogs total (count + 1) rest
    | none =>
      .downloaded (count + 1) total r.filename :: expectedLogs total (count + 1) rest

def isDownloadedLine : LogLine → Bool
  | .downloaded _ _ _ => true
  | _ => false

def isFailedLine : LogLine → Bool
  | .failed _ _ => true
  | _ => false

/-! ### Unfolding lemmas for the result processor -/

theorem drain_nil (ig : Bool) (total count : Nat) :
    drainResults ig total count [] = ([], none) := rfl

theorem drain_cons_err (ig : Bool) (total count : Nat) (l : List result)
    (n : String) (e : GoError) :
    drainResults ig total count (⟨n, some e⟩ :: l) =
      if errorsIsCanceled e then ([], some e)
      else if ig = false then ([], some (.failedItem n e))
      else (.failed n e :: .downloaded (count + 1) total n ::
              (drainResults ig total (count + 1) l).1,
            (drainResults ig total (count + 1) l).2) := rfl

theorem drain_cons_ok (ig : Bool) (total count : Nat) (l : List result)
    (n : String) :
    drainResults ig total count (⟨n, none⟩ :: l) =
      (.downloaded (count + 1) total n ::
         (drainResults ig total (count + 1) l).1,
       (drainResults ig total (count + 1) l).2) := rfl

/-! ### Claim theorems -/

/-- Claim C4: a worker whose context is already cancelled when it enters the
select (ctx.Err() = context.Canceled, and the select resolves to the done
case, i.e. before any request is received) posts exactly one result with an
empty destination name carrying the cancellation error, performs no fetch
calls (the second component lists the requests passed to fetchFn), and
terminates immediately: the outcome is the same for every remaining queue,
so no queued request is consumed. -/
theorem worker_precancelled (f : request → Option GoError) (sched : List Bool)
    (queue : List request) :
    worker (some .canceled) f (true :: sched) queue =
      ([⟨"", some .canceled⟩], []) := by
  cases queue <;> rfl

/-- Claim C7: when manager construction fails (fsadapter.New inside
NewWithPath returns an error), DownloadToPath returns nil — not the
construction error — and never invokes Download (second component false). -/
theorem DownloadToPath_swallows_construction_error (e : GoError)
    (dl : Manager → Option GoError) :
    DownloadToPath (.error e) dl = (none, false) := rfl

/-- Claim C10: context.DeadlineExceeded does not match context.Canceled, so
a result carrying it is handled as an ordinary per-item fetch error by the
drain loop: under the strict policy the loop aborts with the wrapped
per-item error (not a cancellation abort returning the error bare), under
the tolerant policy it logs the failure and continues; and a worker whose
context reached its deadline posts it as its terminal result with an empty
name. -/
theorem deadline_not_cancellation (total count : Nat) (rest : List result)
    (name : String) (f : request → Option GoError) (sched : List Bool)
    (queue : List request) :
    errorsIsCanceled .deadlineExceeded = false ∧
    drainResults false total count (⟨name, some .deadlineExceeded⟩ :: rest) =
      ([], some (.failedItem name .deadlineExceeded)) ∧
    drainResults true total count (⟨name, some .deadlineExceeded⟩ :: rest) =
      (.failed name .deadlineExceeded ::
         .downloaded (count + 1) total name ::
         (drainResults true total (count + 1) rest).1,
       (drainResults true total (count + 1) rest).2) ∧
    worker (some .deadlineExceeded) f (true :: sched) queue =
      ([⟨"", some .deadlineExceeded⟩], []) :=
  ⟨rfl, rfl, rfl, by cases queue <;> rfl⟩

/-- Claim C8 counterexample: a tolerated failure also produces a
"downloaded" progress line (count++ and the progress Printf at
asyncdl.go:216-217 are outside the error branch), contradicting the claim
that a failed result does not additionally produce one. -/
theorem Download_progress_log_counterexample :
    drainResults true 1 0 [⟨"a.txt", some (.statusErr 404 "404 Not Found")⟩] =
      ([.failed "a.txt" (.statusErr 404 "404 Not Found"),
        .downloaded 1 1 "a.txt"], none) := rfl

/-- Claim C5: when building the request and performing the GET succeed,
the destination handle is created, and the HTTP status is not 200, get
returns the status error carrying the numeric code and status text, and the
file at join(destinationDir, destinationName) exists in the storage (empty)
despite the error. -/
theorem get_bad_status_leaves_file (resp : HTTPResp) (fs : FSState)
    (dir name : String) (copyE : Option GoError) (cw : String)
    (hst : resp.statusCode ≠ 200) :
    get ⟨none, .ok resp, none, copyE, cw⟩ fs dir name =
      (.error (.statusErr resp.statusCode resp.status),
        fsCreate (filepathJoin dir name) fs) ∧
    fsLookup (filepathJoin dir name)
        (get ⟨none, .ok resp, none, copyE, cw⟩ fs dir name).2 = some "" := by
  have hg : get ⟨none, .ok resp, none, copyE, cw⟩ fs dir name =
      (.error (.statusErr resp.statusCode resp.status),
        fsCreate (filepathJoin dir name) fs) := by
    simp [get, hst]
  refine ⟨hg, ?_⟩
  rw [hg]
  simp [fsCreate, fsLookup]

/-- Witness for get_bad_status_leaves_file at the repository's own 404 test
case (dir "test", name "file"). -/
theorem get_bad_status_leaves_file_witness :
    get ⟨none, .ok ⟨404, "404 Not Found", ""⟩, none, none, ""⟩ [] "test" "file" =
      (.error (.statusErr 404 "404 Not Found"),
        fsCreate (filepathJoin "test" "file") []) ∧
    fsLookup (filepathJoin "test" "file")
        (get ⟨none, .ok ⟨404, "404 Not Found", ""⟩, none, none, ""⟩ [] "test" "file").2 =
      some "" :=
  get_bad_status_leaves_file ⟨404, "404 Not Found", ""⟩ [] "test" "file" none ""
    (by decide)

/-- Draining a sequence whose elements are all non-aborting (no error, or a
tolerated non-cancellation error) prepends their expected log lines and
continues with the tail at the shifted count. -/
theorem drain_tolerable_extend (ig : Bool) (total : Nat) :
    ∀ (pre tail : List result) (count : Nat),
      (∀ x ∈ pre, x.err = none ∨
        (ig = true ∧ ∃ e, x.err = some e ∧ errorsIsCanceled e = false)) →
      drainResults ig total count (pre ++ tail) =
        (expectedLogs total count pre ++
           (drainResults ig total (count + pre.length) tail).1,
         (drainResults ig total (count + pre.length) tail).2) := by
  intro pre
  induction pre with
  | nil =>
    intro tail count _
    simp [expectedLogs]
  | cons x xs ih =>
    intro tail count hpre
    obtain ⟨n, err⟩ := x
    rcases hpre ⟨n, err⟩ (by simp) with hx | ⟨hig, e, hx, hce⟩
    · simp only at hx
      subst hx
      rw [List.cons_append, drain_cons_ok]
      rw [ih tail (count + 1) (fun y hy => hpre y (by simp [hy]))]
      have harith : count + 1 + xs.length = count + (xs.length + 1) := by omega
      simp [expectedLogs, harith]
    · simp only at hx
      subst hx
      subst hig
      rw [List.cons_append, drain_cons_err]
      rw [if_neg (by simp [hce]), if_neg (by simp)]
      rw [ih tail (count + 1) (fun y hy => hpre y (by simp [hy]))]
      have harith : count + 1 + xs.length = count + (xs.length + 1) := by omega
      simp [expectedLogs, harith]

/-- Under the tolerant policy, a drained sequence free of
cancellation-flavoured errors is drained to the end: the loop logs the
expected lines and Download reaches its final return nil. -/
theorem drain_no_abort (total : Nat) (l : List result) (count : Nat)
    (h : ∀ x ∈ l, ∀ e, x.err = some e → errorsIsCanceled e = false) :
    drainResults true total count l = (expectedLogs total count l, none) := by
  have hext := drain_tolerable_extend true total l [] count ?_
  · simpa [drain_nil] using hext
  · intro x hx
    cases he : x.err with
    | none => exact Or.inl rfl
    | some e => exact Or.inr ⟨rfl, e, rfl, h x hx e he⟩

/-- Claim C1: for a drained result carrying a non-cancellation error, under
the strict policy (ignoreFetchErrors = false) the drain loop aborts at that
result — the outcome does not depend on the remaining results — returning
the error wrapped with the result's destination name; under the tolerant
policy (the default) a sequence with only non-cancellation errors is
drained to the end and Download returns nil. -/
theorem Download_drain_error_policy (total count : Nat)
    (pre rest results : List result) (r : result) (e : GoError) :
    ((∀ x ∈ pre, x.err = none) → r.err = some e → errorsIsCanceled e = false →
      (drainResults false total count (pre ++ r :: rest)).2 =
          some (.failedItem r.filename e) ∧
        drainResults false total count (pre ++ r :: rest) =
          drainResults false total count (pre ++ [r])) ∧
    ((∀ x ∈ results, ∀ e2, x.err = some e2 → errorsIsCanceled e2 = false) →
      (drainResults true total count results).2 = none) := by
  constructor
  · intro hpre hr hc
    obtain ⟨n, err⟩ := r
    simp only at hr
    subst hr
    have hclean : ∀ x ∈ pre, x.err = none ∨
        (false = true ∧ ∃ e2, x.err = some e2 ∧ errorsIsCanceled e2 = false) :=
      fun x hx => Or.inl (hpre x hx)
    rw [drain_tolerable_extend false total pre (⟨n, some e⟩ :: rest) count hclean,
      drain_tolerable_extend false total pre [⟨n, some e⟩] count hclean]
    simp [drain_cons_err, hc]
  · intro hok
    rw [drain_no_abort total results count hok]

/-- Witness for Download_drain_error_policy: a strict-policy abort on a 500
error after one success, and a tolerant run over one 404 failure returning
nil. -/
theorem Download_drain_error_policy_witness :
    ((drainResults false 2 0
        ([⟨"a", none⟩] ++ (⟨"b", some (.statusErr 500 "ise")⟩ : result) ::
          [⟨"c", none⟩])).2 =
       some (.failedItem "b" (.statusErr 500 "ise")) ∧
      drainResults false 2 0
          ([⟨"a", none⟩] ++ (⟨"b", some (.statusErr 500 "ise")⟩ : result) ::
            [⟨"c", none⟩]) =
        drainResults false 2 0
          ([⟨"a", none⟩] ++ [⟨"b", some (.statusErr 500 "ise")⟩])) ∧
    (drainResults true 1 0 [⟨"d", some (.statusErr 404 "nf")⟩]).2 = none :=
  ⟨(Download_drain_error_policy 2 0 [⟨"a", none⟩] [⟨"c", none⟩] []
      ⟨"b", some (.statusErr 500 "ise")⟩ (.statusErr 500 "ise")).1
      (by intro x hx; simp at hx; subst hx; rfl) rfl rfl,
   (Download_drain_error_policy 1 0 [] [] [⟨"d", some (.statusErr 404 "nf")⟩]
      ⟨"", none⟩ .canceled).2
      (by intro x hx e2 he2
          simp at hx
          subst hx
          simp only at he2
          cases he2
          rfl)⟩

/-- Claim C2: the first drained result whose error is cancellation-flavoured
makes the drain loop return that error immediately, whatever the
ignoreFetchErrors policy, and the remaining results are never drained: the
outcome is the same for every remainder of the sequence. -/
theorem Download_drain_cancel_abort (ig : Bool) (total count : Nat)
    (pre rest rest2 : List result) (r : result) (e : GoError)
    (hpre : ∀ x ∈ pre, x.err = none ∨
      (ig = true ∧ ∃ e2, x.err = some e2 ∧ errorsIsCanceled e2 = false))
    (hr : r.err = some e) (hc : errorsIsCanceled e = true) :
    (drainResults ig total count (pre ++ r :: rest)).2 = some e ∧
      drainResults ig total count (pre ++ r :: rest) =
        drainResults ig total count (pre ++ r :: rest2) := by
  obtain ⟨n, err⟩ := r
  simp only at hr
  subst hr
  rw [drain_tolerable_extend ig total pre (⟨n, some e⟩ :: rest) count hpre,
    drain_tolerable_extend ig total pre (⟨n, some e⟩ :: rest2) count hpre]
  simp [drain_cons_err, hc]

/-- Witness for Download_drain_cancel_abort: under the strict policy a
cancellation result aborts with context.Canceled itself, and the pending
success result is discarded. -/
theorem Download_drain_cancel_abort_witness :
    (drainResults false 5 0
        ([] ++ (⟨"", some .canceled⟩ : result) :: [⟨"x", none⟩])).2 =
      some .canceled ∧
    drainResults false 5 0
        ([] ++ (⟨"", some .canceled⟩ : result) :: [⟨"x", none⟩]) =
      drainResults false 5 0 ([] ++ (⟨"", some .canceled⟩ : result) :: []) :=
  Download_drain_cancel_abort false 5 0 [] [⟨"x", none⟩] [] ⟨"", some .canceled⟩
    .canceled (by intro x hx; simp at hx) rfl rfl

theorem isDownloadedLine_downloaded (c t : Nat) (n : String) :
    isDownloadedLine (.downloaded c t n) = true := rfl

theorem isDownloadedLine_failed (n : String) (e : GoError) :
    isDownloadedLine (.failed n e) = false := rfl

theorem isFailedLine_downloaded (c t : Nat) (n : String) :
    isFailedLine (.downloaded c t n) = false := rfl

theorem isFailedLine_failed (n : String) (e : GoError) :
    isFailedLine (.failed n e) = true := rfl

theorem expectedLogs_count_downloaded (total : Nat) :
    ∀ (l : List result) (count : Nat),
      (expectedLogs total count l).countP (fun x => isDownloadedLine x) = l.length := by
  intro l
  induction l with
  | nil => intro count; rfl
  | cons x xs ih =>
    intro count
    obtain ⟨n, err⟩ := x
    cases err <;>
      simp [expectedLogs, List.countP_cons, isDownloadedLine_downloaded,
        isDownloadedLine_failed, ih (count + 1)]

theorem expectedLogs_count_failed (total : Nat) :
    ∀ (l : List result) (count : Nat),
      (expectedLogs total count l).countP (fun x => isFailedLine x) =
        l.countP (fun x => x.err.isSome) := by
  intro l
  induction l with
  | nil => intro count; rfl
  | cons x xs ih =>
    intro count
    obtain ⟨n, err⟩ := x
    cases err <;>
      simp [expectedLogs, List.countP_cons, isFailedLine_downloaded,
        isFailedLine_failed, ih (count + 1)]

/-- Claim C8 amended: under the tolerant policy, every drained result —
successful or a tolerated failure — produces exactly one progress line,
numbered with the count of results drained so far; each tolerated failure
additionally produces exactly one failure line, emitted immediately before
that result's progress line.  (The original claim wrongly excluded failed
results from the progress line.) -/
theorem Download_progress_log_amended (total count : Nat) (results : List result)
    (h : ∀ x ∈ results, ∀ e, x.err = some e → errorsIsCanceled e = false) :
    (drainResults true total count results).1 = expectedLogs total count results ∧
    ((drainResults true total count results).1.countP
        (fun x => isDownloadedLine x)) = results.length ∧
    ((drainResults true total count results).1.countP
        (fun x => isFailedLine x)) = results.countP (fun x => x.err.isSome) := by
  have hd := drain_no_abort total results count h
  refine ⟨by rw [hd], ?_, ?_⟩
  · rw [hd]
    exact expectedLogs_count_downloaded total results count
  · rw [hd]
    exact expectedLogs_count_failed total results count

/-- Witness for Download_progress_log_amended: one success followed by one
tolerated 500 failure. -/
theorem Download_progress_log_amended_witness :
    (drainResults true 2 0
        [⟨"a", none⟩, ⟨"b", some (.statusErr 500 "ise")⟩]).1 =
      expectedLogs 2 0 [⟨"a", none⟩, ⟨"b", some (.statusErr 500 "ise")⟩] ∧
    ((drainResults true 2 0
        [⟨"a", none⟩, ⟨"b", some (.statusErr 500 "ise")⟩]).1.countP
        (fun x => isDownloadedLine x)) =
      ([⟨"a", none⟩, (⟨"b", some (.statusErr 500 "ise")⟩ : result)] : List result).length ∧
    ((drainResults true 2 0
        [⟨"a", none⟩, ⟨"b", some (.statusErr 500 "ise")⟩]).1.countP
        (fun x => isFailedLine x)) =
      ([⟨"a", none⟩, (⟨"b", some (.statusErr 500 "ise")⟩ : result)] : List result).countP
        (fun x => x.err.isSome) :=
  Download_progress_log_amended 2 0 [⟨"a", none⟩, ⟨"b", some (.statusErr 500 "ise")⟩]
    (by
      intro x hx e he
      simp at hx
      rcases hx with hx | hx <;> subst hx <;> simp only at he
      · cases he
      · cases he; rfl)

/-- Claim C6: parseURLs fails atomically: when every non-empty entry before
u parses and u (non-empty) does not, the whole call returns u's error —
Except carries no partial request list — regardless of the entries after
u. -/
theorem parseURLs_atomic (pre : List String) (u : String) (post : List String)
    (e : GoError) (hpre : ∀ v ∈ pre, v = "" ∨ ∃ n, basename v = .ok n)
    (hu : u ≠ "") (he : basename u = .error e) :
    parseURLs (pre ++ u :: post) = .error e := by
  induction pre with
  | nil =>
    simp only [List.nil_append, parseURLs, if_neg hu, he]
  | cons v vs ih =>
    have ihv := ih (fun w hw => hpre w (by simp [hw]))
    by_cases hv : v = ""
    · subst hv
      simpa [parseURLs] using ihv
    · rcases hpre v (by simp) with hv2 | ⟨n, hn⟩
      · exact absurd hv2 hv
      · simp only [List.cons_append, parseURLs, if_neg hv, hn]
        rw [List.append_eq, ihv]

/-- Witness for parseURLs_atomic: an invalid entry after a valid one and an
empty one poisons the whole call, also discarding the valid tail entry. -/
theorem parseURLs_atomic_witness :
    parseURLs (["https://h/ok.txt", ""] ++ "borked" :: ["https://h/tail.txt"]) =
      .error (.invalidURI "borked") :=
  parseURLs_atomic ["https://h/ok.txt", ""] "borked" ["https://h/tail.txt"]
    (.invalidURI "borked")
    (by
      intro v hv
      simp at hv
      rcases hv with hv | hv <;> subst hv
      · exact Or.inr ⟨"ok.txt", rfl⟩
      · exact Or.inl rfl)
    (by decide) rfl

theorem foldl_applyOption_numWorkers_pos :
    ∀ (opts : List MgrOption) (m : Manager), 1 ≤ m.numWorkers →
      1 ≤ (opts.foldl applyOption m).numWorkers := by
  intro opts
  induction opts with
  | nil => intro m h; exact h
  | cons o os ih =>
    intro m h
    rw [List.foldl_cons]
    apply ih
    cases o with
    | numWorkersOpt n =>
      simp only [applyOption]
      by_cases hn : n < 1
      · rw [if_pos hn]; decide
      · rw [if_neg hn]; omega
    | ignoreHTTPErrorsOpt b => exact h

/-- A manager whose worker count is non-zero passes through Download with
its state untouched (the lines 155-157 assignment is the only field write
in Download). -/
theorem Download_fst_of_numWorkers_ne_zero (m : Manager) (urls : List String)
    (results : List result) (h : ¬ m.numWorkers = 0) :
    (Download m urls results).1 = m := by
  by_cases hc : m.isClosed
  · simp [Download, hc]
  · simp only [Download, if_neg hc, if_neg h]
    cases hp : parseURLs urls with
    | error e => rfl
    | ok reqs =>
      cases hd : (drainResults m.ignoreHTTPerr urls.length 0 results).2 <;>
        simp [hd, Option.elim]

/-- Download never writes the ignoreHTTPerr or fetchFn fields, for any
manager. -/
theorem Download_fst_frame (m : Manager) (urls : List String)
    (results : List result) :
    (Download m urls results).1.ignoreHTTPerr = m.ignoreHTTPerr ∧
    (Download m urls results).1.fetchFn = m.fetchFn := by
  by_cases hc : m.isClosed
  · simp [Download, hc]
  · by_cases hz : m.numWorkers = 0
    · simp only [Download, if_neg hc, if_pos hz]
      cases hp : parseURLs urls with
      | error e => exact ⟨rfl, rfl⟩
      | ok reqs =>
        cases hd : (drainResults
            ({ m with numWorkers := defNumWorkers } : Manager).ignoreHTTPerr
            urls.length 0 results).2 <;>
          simp [hd, Option.elim]
    · rw [Download_fst_of_numWorkers_ne_zero m urls results hz]
      exact ⟨rfl, rfl⟩

/-- Claim C9: a manager built through the public construction surface (New
or NewWithPath, whose shared tail newMgr applies the construction options)
keeps its workerCount, ignoreFetchErrors and fetchFunction configuration
across a Download invocation — the options coerce any worker count below
one to the default, so the numWorkers = 0 rewrite inside Download never
fires — and Download never writes the policy or fetch-function fields of
any manager. -/
theorem Download_preserves_config (opts : List MgrOption) (urls : List String)
    (results : List result) (m : Manager) :
    (Download (newMgr opts) urls results).1.numWorkers = (newMgr opts).numWorkers ∧
    (Download (newMgr opts) urls results).1.ignoreHTTPerr =
      (newMgr opts).ignoreHTTPerr ∧
    (Download (newMgr opts) urls results).1.fetchFn = (newMgr opts).fetchFn ∧
    (Download m urls results).1.ignoreHTTPerr = m.ignoreHTTPerr ∧
    (Download m urls results).1.fetchFn = m.fetchFn := by
  have hpos : 1 ≤ (newMgr opts).numWorkers :=
    foldl_applyOption_numWorkers_pos opts _ (by decide)
  have hfix := Download_fst_of_numWorkers_ne_zero (newMgr opts) urls results
    (by omega)
  have hfr := Download_fst_frame m urls results
  exact ⟨by rw [hfix], by rw [hfix], by rw [hfix], hfr.1, hfr.2⟩

theorem parseURLs_single (s : String) (h : s ≠ "") :
    parseURLs [s] = match basename s with
      | .error e => .error e
      | .ok n => .ok [⟨n, s⟩] := by
  simp only [parseURLs, if_neg h]

/-- Claim C3 counterexample: for "http://h/ab%2F" the claim's acceptance
condition is false — the decoded path component "/ab/" ends in a slash and
its final segment (the substring after the last slash) is empty — and the
claim therefore requires parseURLs to fail; yet parseURLs accepts the
string (the regular expression constrains the last character of the whole
string, not of the path, and path.Base strips the trailing slash the
percent-decoding reintroduced), producing the name "ab" rather than the
claim's final segment. -/
theorem parseURLs_claim_C3_counterexample :
    parseURLs ["http://h/ab%2F"] = .ok [⟨"ab", "http://h/ab%2F"⟩] ∧
    claimC3Accepts "http://h/ab%2F" = false ∧
    urlParse ("http://h/ab%2F".toList) = .ok ("/ab/".toList) := by
  refine ⟨rfl, rfl, rfl⟩

theorem basename_of_no_match (s : String) (hm : httpReMatch s = false) :
    basename s = .error (.invalidURI s) := by
  unfold basename
  rw [if_pos (by simp [hm])]

theorem basename_of_parse_error (s : String) (e : GoError)
    (hm : httpReMatch s = true) (hp : urlParse s.toList = .error e) :
    basename s = .error e := by
  unfold basename
  rw [if_neg (by simp [hm]), hp]

theorem basename_of_short (s : String) (p : List Char)
    (hm : httpReMatch s = true) (hp : urlParse s.toList = .ok p)
    (hl : (pathBase p).length < 2) :
    basename s = .error (.notAFile (listToStr (pathBase p))) := by
  unfold basename
  rw [if_neg (by simp [hm]), hp]
  exact if_pos hl

theorem basename_of_long (s : String) (p : List Char)
    (hm : httpReMatch s = true) (hp : urlParse s.toList = .ok p)
    (hl : ¬ (pathBase p).length < 2) :
    basename s = .ok (listToStr (pathBase p)) := by
  unfold basename
  rw [if_neg (by simp [hm]), hp]
  exact if_neg hl

theorem basename_ok_inv (s : String) (n : String) (hb : basename s = .ok n) :
    httpReMatch s = true ∧ ∃ p, urlParse s.toList = .ok p ∧
      2 ≤ (pathBase p).length ∧ n = listToStr (pathBase p) := by
  unfold basename at hb
  by_cases hm : httpReMatch s
  · rw [if_neg (by simp [hm])] at hb
    cases hp : urlParse s.toList with
    | error e => rw [hp] at hb; cases hb
    | ok p =>
      rw [hp] at hb
      have hb2 : (if (pathBase p).length < 2 then
            Except.error (GoError.notAFile (listToStr (pathBase p)))
          else Except.ok (listToStr (pathBase p))) = Except.ok n := hb
      by_cases hl : (pathBase p).length < 2
      · rw [if_pos hl] at hb2; cases hb2
      · rw [if_neg hl] at hb2
        have hn := Except.ok.inj hb2
        exact ⟨hm, p, rfl, by omega, hn.symm⟩
  · rw [if_pos hm] at hb; cases hb

/-- Claim C3 amended: for a non-empty string, parseURLs yields exactly the
request named by the string iff the string matches the regular expression
httpRe (whole-string shape: http or https scheme, a non-empty remainder
whose final character is not a slash and which contains no interior
newline), net/url parsing succeeds, and path.Base of the decoded path
component has length at least two, the destination name being that
path.Base value; otherwise it fails with the invalid-URI error carrying the
string (regex mismatch), with the url parse error, or with the not-a-file
error carrying the too-short base. -/
theorem parseURLs_accepts_iff (s : String) (h : s ≠ "") :
    (∀ name, parseURLs [s] = .ok [⟨name, s⟩] ↔
      (httpReMatch s = true ∧ ∃ p, urlParse s.toList = .ok p ∧
        2 ≤ (pathBase p).length ∧ name = listToStr (pathBase p))) ∧
    (httpReMatch s = false → parseURLs [s] = .error (.invalidURI s)) ∧
    (∀ e, httpReMatch s = true → urlParse s.toList = .error e →
      parseURLs [s] = .error e) ∧
    (∀ p, httpReMatch s = true → urlParse s.toList = .ok p →
      (pathBase p).length < 2 →
      parseURLs [s] = .error (.notAFile (listToStr (pathBase p)))) := by
  refine ⟨?_, ?_, ?_, ?_⟩
  · intro name
    constructor
    · intro hok
      rw [parseURLs_single s h] at hok
      cases hb : basename s with
      | error e => rw [hb] at hok; cases hok
      | ok n =>
        rw [hb] at hok
        simp only [Except.ok.injEq, List.cons.injEq, request.mk.injEq,
          and_true] at hok
        obtain ⟨hm2, p, hp, hl, hn2⟩ := basename_ok_inv s n hb
        exact ⟨hm2, p, hp, hl, by rw [← hok, hn2]⟩
    · rintro ⟨hm2, p, hp, hl, hname⟩
      rw [parseURLs_single s h, basename_of_long s p hm2 hp (by omega), hname]
  · intro hm2
    rw [parseURLs_single s h, basename_of_no_match s hm2]
  · intro e hm2 hp
    rw [parseURLs_single s h, basename_of_parse_error s e hm2 hp]
  · intro p hm2 hp hl
    rw [parseURLs_single s h, basename_of_short s p hm2 hp hl]

/-- Witness for parseURLs_accepts_iff at the repository's own test URL. -/
theorem parseURLs_accepts_iff_witness :
    parseURLs ["https://foo.bar/baz.txt"] =
      .ok [⟨"baz.txt", "https://foo.bar/baz.txt"⟩] :=
  ((parseURLs_accepts_iff "https://foo.bar/baz.txt" (by decide)).1 "baz.txt").mpr
    ⟨rfl, "/baz.txt".toList, rfl, by decide, rfl⟩

end Asyncdl
